import Mathlib

/-!
Verification of the `bdk` electrum reconciliation engine and persistence
staging layer, as a shallow embedding of the Rust source.

Modelling conventions:
* `BlockHash`, `Txid` and `Script` are modelled as `Nat` identifiers.
* The electrum client is modelled as a pure oracle: `block_header` and
  `script_get_history` are total functions (the error-free execution path of
  the source; no claim concerns their transport failures), while
  `transaction_get` returns `Except ElectrumError Transaction` because its
  failure behaviour is the subject of a claim.
* Rust `i32` heights reported by the electrum protocol are modelled as `Int`;
  `u32`/`usize` values as `Nat` (no arithmetic in the modelled code can
  overflow in the regimes the theorems speak about).
* A Rust `panic` / `expect` failure and a non-returning retry loop are both
  denoted by `none` in an `Option`-valued result.
* `BTreeMap` is modelled as a sorted association list with an explicit
  comparator; `HashMap` as an association list updated in place.
-/

/-- `BlockId` from `bdk_chain`: a height paired with a block hash. -/
structure BlockId where
  height : Nat
  hash : Nat
deriving DecidableEq, Repr

/-- `ConfirmationHeightAnchor` from `bdk_chain`. -/
structure ConfirmationHeightAnchor where
  anchor_block : BlockId
  confirmation_height : Nat
deriving DecidableEq, Repr

/-- One entry of an electrum `script_get_history` response:
a txid together with the protocol's raw reported height (an `i32`). -/
structure HistoryItem where
  tx_hash : Nat
  height : Int
deriving DecidableEq, Repr

/-- The hard-coded genesis coinbase txid from `determine_tx_anchor`
(`4a5e1e4baab89f3a32518a88c31bc87f618f76673e2cc77ab2127b7afdeda33b`),
read as a number. -/
def genesis_coinbase_txid : Nat :=
  0x4a5e1e4baab89f3a32518a88c31bc87f618f76673e2cc77ab2127b7afdeda33b

/-- `determine_tx_anchor` from `crates/electrum/src/electrum_ext.rs`:
classifies a raw electrum-reported height against the anchor block.
The `debug_assert!` on unexpected negative heights has no release-mode
effect and is not modelled; `h as u32` for `0 < h` is `Int.toNat`. -/
def determine_tx_anchor (anchor_block : BlockId) (raw_height : Int) (txid : Nat) :
    Option ConfirmationHeightAnchor :=
  if txid = genesis_coinbase_txid then
    some { anchor_block, confirmation_height := 0 }
  else if raw_height ≤ 0 then
    none
  else
    let h := raw_height.toNat
    if anchor_block.height < h then
      none
    else
      some { anchor_block, confirmation_height := h }

/-- C2: the anchor classifier returns `Some(anchor_block, 0)` for the genesis
coinbase txid regardless of reported height; `None` for any other txid when
the reported height is nonpositive or exceeds the anchor height; and
`Some(anchor_block, reported_height)` otherwise — including the four literal
cases of the spec's classification table. -/
theorem determine_tx_anchor_spec (ab : BlockId) (h : Int) (txid : Nat) :
    (txid = genesis_coinbase_txid →
      determine_tx_anchor ab h txid = some ⟨ab, 0⟩) ∧
    (txid ≠ genesis_coinbase_txid → h ≤ 0 →
      determine_tx_anchor ab h txid = none) ∧
    (txid ≠ genesis_coinbase_txid → 0 < h → (ab.height : Int) < h →
      determine_tx_anchor ab h txid = none) ∧
    (txid ≠ genesis_coinbase_txid → 0 < h → h ≤ (ab.height : Int) →
      determine_tx_anchor ab h txid = some ⟨ab, h.toNat⟩) ∧
    (determine_tx_anchor ⟨100, 555⟩ 0 77 = none ∧
      determine_tx_anchor ⟨100, 555⟩ 50 77 = some ⟨⟨100, 555⟩, 50⟩ ∧
      determine_tx_anchor ⟨100, 555⟩ 150 77 = none ∧
      determine_tx_anchor ⟨0, 999⟩ (-1) genesis_coinbase_txid =
        some ⟨⟨0, 999⟩, 0⟩) := by
  refine ⟨?_, ?_, ?_, ?_, ?_⟩
  · intro hg
    simp [determine_tx_anchor, hg]
  · intro hg hle
    simp [determine_tx_anchor, hg, hle]
  · intro hg hpos hgt
    have hnle : ¬ h ≤ 0 := not_le.mpr hpos
    have htn : ab.height < h.toNat := by omega
    simp [determine_tx_anchor, hg, hnle, htn]
  · intro hg hpos hle
    have hnle : ¬ h ≤ 0 := not_le.mpr hpos
    have htn : ¬ ab.height < h.toNat := by omega
    simp [determine_tx_anchor, hg, hnle, htn]
  · refine ⟨by decide, by decide, by decide, ?_⟩
    simp [determine_tx_anchor]

/-! ## Persistence staging layer (`crates/persist/src/persist.rs`) -/

/-- The state a `Stage` implementor carries: the staged-but-uncommitted
changeset together with the backend state mutated by `write_changes`. -/
structure StageState (C σ : Type) where
  staged : C
  backend : σ
deriving DecidableEq, Repr

/-- The default body of `Stage::commit` from `crates/persist/src/persist.rs`:

    if self.staged().is_empty() { return Ok(None); }
    let staged = self.take_staged();
    self.write_changes(&staged).map(|_| Some(staged))

`is_empty` models the changeset's `Append::is_empty`; `dflt` is the
`Default::default()` value `take_staged` leaves behind; `write_changes`
takes the backend state by mutable reference, modelled as returning the
possibly-mutated backend alongside the error or unit result. -/
def Stage.commit {C σ E : Type} (is_empty : C → Bool) (dflt : C)
    (write_changes : σ → C → Except E Unit × σ) (s : StageState C σ) :
    Except E (Option C) × StageState C σ :=
  if is_empty s.staged then
    (Except.ok none, s)
  else
    let staged := s.staged
    match write_changes s.backend staged with
    | (Except.ok _, b) => (Except.ok (some staged), { staged := dflt, backend := b })
    | (Except.error e, b) => (Except.error e, { staged := dflt, backend := b })

/-- A backend whose `write_changes` always fails, leaving its state intact
and recording nothing. -/
def failingWrite : Nat → Option Nat → Except Nat Unit × Nat :=
  fun b _ => (Except.error 0, b)

/-- C1 (failing input): committing a stage that holds the nonempty changeset
`some 7` against a backend whose `write_changes` fails returns the write
error, but the staged changeset has already been taken: `staged()` afterwards
yields the default (empty) changeset, not `some 7` — the claimed
retry-without-data-loss is impossible. -/
theorem commit_write_error_loses_stage :
    (Stage.commit Option.isNone none failingWrite ⟨some 7, 0⟩).1 =
      Except.error 0 ∧
    (Stage.commit Option.isNone none failingWrite ⟨some 7, 0⟩).2.staged = none := by
  exact ⟨rfl, rfl⟩

/-- C9: committing an empty stage returns `Ok(None)` and leaves the whole
state (staged changeset and backend) unchanged, for every backend
`write_changes` function — so `write_changes` is never consulted. -/
theorem commit_empty_stage_noop {C σ E : Type} (is_empty : C → Bool) (dflt : C)
    (write_changes : σ → C → Except E Unit × σ) (s : StageState C σ)
    (h : is_empty s.staged = true) :
    Stage.commit is_empty dflt write_changes s = (Except.ok none, s) := by
  simp [Stage.commit, h]

/-- Witness for C9 at a concrete state and backend. -/
theorem commit_empty_stage_noop_witness :
    Stage.commit Option.isNone none failingWrite ⟨none, 3⟩ =
      (Except.ok none, ⟨none, 3⟩) :=
  commit_empty_stage_noop Option.isNone none failingWrite ⟨none, 3⟩ rfl

/-! ## `DbCommitment` (`crates/sqlite_store/src/lib.rs`) -/

/-- `DbCommitment` from `crates/sqlite_store/src/lib.rs`. The inner
`local_chain::ChangeSet` and `indexed_tx_graph::ChangeSet` types live in
`bdk_chain`, outside the provided sources, so they are kept as type
parameters; all that `DbCommitment` uses of them is their own emptiness
predicate. -/
structure DbCommitment (Γ Τ : Type) where
  network : Option Nat
  chain : Γ
  tx_graph : Τ
deriving DecidableEq, Repr

/-- `Append::is_empty` for `DbCommitment`:
`self.chain.is_empty() && self.tx_graph.is_empty()` — the `network` field is
not consulted. -/
def DbCommitment.is_empty {Γ Τ : Type} (chain_empty : Γ → Bool)
    (graph_empty : Τ → Bool) (c : DbCommitment Γ Τ) : Bool :=
  chain_empty c.chain && graph_empty c.tx_graph

/-- C10: `DbCommitment::is_empty` holds exactly when the chain and tx-graph
changesets are both empty, never reads `network` (replacing `network` by
anything leaves it unchanged), and committing a stage whose staged changeset
carries only a `network` value returns `Ok(None)` and leaves the state —
hence the store — untouched. -/
theorem dbcommitment_is_empty_ignores_network {Γ Τ σ E : Type}
    (chain_empty : Γ → Bool) (graph_empty : Τ → Bool)
    (c : DbCommitment Γ Τ) (x : Option Nat) (dflt : DbCommitment Γ Τ)
    (write_changes : σ → DbCommitment Γ Τ → Except E Unit × σ)
    (s : StageState (DbCommitment Γ Τ) σ)
    (hc : chain_empty s.staged.chain = true)
    (hg : graph_empty s.staged.tx_graph = true) :
    (DbCommitment.is_empty chain_empty graph_empty c =
      (chain_empty c.chain && graph_empty c.tx_graph)) ∧
    (DbCommitment.is_empty chain_empty graph_empty { c with network := x } =
      DbCommitment.is_empty chain_empty graph_empty c) ∧
    Stage.commit (DbCommitment.is_empty chain_empty graph_empty) dflt
        write_changes s = (Except.ok none, s) := by
  refine ⟨rfl, rfl, ?_⟩
  apply commit_empty_stage_noop
  simp [DbCommitment.is_empty, hc, hg]

/-- Witness for C10: a changeset whose only content is `network = some 5` is
reported empty and committing it writes nothing. -/
theorem dbcommitment_is_empty_ignores_network_witness :
    (DbCommitment.is_empty List.isEmpty List.isEmpty
      (⟨some 5, ([] : List Nat), ([] : List Nat)⟩ : DbCommitment (List Nat) (List Nat)) =
      true) ∧
    Stage.commit (DbCommitment.is_empty List.isEmpty List.isEmpty)
        (⟨none, [], []⟩ : DbCommitment (List Nat) (List Nat))
        (fun (b : Nat) _ => (Except.error (0 : Nat), b))
        ⟨⟨some 5, [], []⟩, 4⟩ =
      (Except.ok none, ⟨⟨some 5, [], []⟩, 4⟩) := by
  have h := dbcommitment_is_empty_ignores_network
    List.isEmpty List.isEmpty
    (⟨some 5, ([] : List Nat), ([] : List Nat)⟩ : DbCommitment (List Nat) (List Nat))
    (some 5) (⟨none, [], []⟩ : DbCommitment (List Nat) (List Nat))
    (fun (b : Nat) _ => (Except.error (0 : Nat), b))
    ⟨⟨some 5, [], []⟩, 4⟩ rfl rfl
  exact ⟨by decide, h.2.2⟩

/-! ## Graph update map and sorted maps -/

/-- The `graph_update` field: `HashMap<Txid, BTreeSet<ConfirmationHeightAnchor>>`
as an association list whose values are duplicate-free anchor lists. -/
abbrev GraphUpdate := List (Nat × List ConfirmationHeightAnchor)

/-- `BTreeSet::insert` on an anchor collection. -/
def insertAnchor (s : List ConfirmationHeightAnchor)
    (a : ConfirmationHeightAnchor) : List ConfirmationHeightAnchor :=
  if a ∈ s then s else s ++ [a]

/-- The source pattern
`let tx_entry = update.graph_update.entry(txid).or_default();
 if let Some(anchor) = anchor { tx_entry.insert(anchor); }`. -/
def graphInsert : GraphUpdate → Nat → Option ConfirmationHeightAnchor → GraphUpdate
  | [], txid, a? => [(txid, match a? with | some a => [a] | none => [])]
  | (t, s) :: rest, txid, a? =>
    if t = txid then
      (t, match a? with | some a => insertAnchor s a | none => s) :: rest
    else
      (t, s) :: graphInsert rest txid a?

/-- Lookup in the graph-update map. -/
def graphGet (g : GraphUpdate) (txid : Nat) :
    Option (List ConfirmationHeightAnchor) :=
  (g.find? (fun e => e.1 == txid)).map (·.2)

/-- `BTreeMap::insert` on a sorted association list, with an explicit strict
comparator `lt` (keys compared equal are overwritten). -/
def btreeInsert {α β : Type} (lt : α → α → Bool) :
    List (α × β) → α → β → List (α × β)
  | [], k, v => [(k, v)]
  | (k0, v0) :: rest, k, v =>
    if lt k k0 then (k, v) :: (k0, v0) :: rest
    else if lt k0 k then (k0, v0) :: btreeInsert lt rest k v
    else (k, v) :: rest

/-! ## Gap-limited script scanner (`populate_with_spks`) -/

/-- Result of `populate_with_spks`: the updated graph map, the returned
`scanned_spks` map (index ↦ script, is-used flag), plus two observations of
the run: `queried` lists, in request order, every index whose script was sent
to `batch_script_get_history`, and `stopped` records whether the stop-gap
early return fired. -/
structure SpksResult (I : Type) where
  graph : GraphUpdate
  scanned : List (I × (Nat × Bool))
  queried : List I
  stopped : Bool
deriving Repr

/-- The body of the `for ((spk_index, spk), spk_history)` loop of
`populate_with_spks`, over one batch of scripts with their histories looked
up in the `hist` oracle. Returns the updated graph, scanned map and
consecutive-unused count, and whether the `unused_spk_count > stop_gap`
early return fired. -/
def processBatch {I : Type} (ilt : I → I → Bool) (hist : Nat → List HistoryItem)
    (anchor_block : BlockId) (stop_gap : Nat) :
    GraphUpdate → List (I × (Nat × Bool)) → Nat → List (I × Nat) →
    GraphUpdate × List (I × (Nat × Bool)) × Nat × Bool
  | graph, scanned, count, [] => (graph, scanned, count, false)
  | graph, scanned, count, (i, spk) :: rest =>
    match hist spk with
    | [] =>
      let scanned1 := btreeInsert ilt scanned i (spk, false)
      if stop_gap < count + 1 then (graph, scanned1, count + 1, true)
      else processBatch ilt hist anchor_block stop_gap graph scanned1 (count + 1) rest
    | e :: es =>
      let scanned1 := btreeInsert ilt scanned i (spk, true)
      let graph1 := (e :: es).foldl
        (fun g r => graphInsert g r.tx_hash
          (determine_tx_anchor anchor_block r.height r.tx_hash))
        graph
      processBatch ilt hist anchor_block stop_gap graph1 scanned1 0 rest

/-- The outer `loop` of `populate_with_spks`: take up to `batch_size` scripts
from the remaining request, query their histories as one batch, process them,
and repeat. `fuel` only serves termination: each round drops at least one
element of `spks` when the batch is nonempty, so `spks.length + 1` rounds
always suffice and the fuel-exhausted branch is unreachable from
`populate_with_spks`. -/
def populateSpksLoop {I : Type} (ilt : I → I → Bool)
    (hist : Nat → List HistoryItem) (anchor_block : BlockId)
    (stop_gap batch_size : Nat) :
    Nat → GraphUpdate → List (I × (Nat × Bool)) → List I → Nat →
    List (I × Nat) → SpksResult I
  | 0, graph, scanned, queried, _, _ => ⟨graph, scanned, queried, false⟩
  | fuel + 1, graph, scanned, queried, count, spks =>
    let batch := spks.take batch_size
    match batch with
    | [] => ⟨graph, scanned, queried, false⟩
    | _ :: _ =>
      let queried1 := queried ++ batch.map (·.1)
      match processBatch ilt hist anchor_block stop_gap graph scanned count batch with
      | (g, sc, _, true) => ⟨g, sc, queried1, true⟩
      | (g, sc, c, false) =>
        populateSpksLoop ilt hist anchor_block stop_gap batch_size fuel
          g sc queried1 c (spks.drop batch_size)

/-- `populate_with_spks` from `crates/electrum/src/electrum_ext.rs`,
generic over the index type `I` ordered by `ilt`. The electrum client's
`batch_script_get_history` is the oracle `hist`. -/
def populate_with_spks {I : Type} (ilt : I → I → Bool)
    (hist : Nat → List HistoryItem) (anchor_block : BlockId)
    (graph : GraphUpdate) (spks : List (I × Nat)) (stop_gap batch_size : Nat) :
    SpksResult I :=
  populateSpksLoop ilt hist anchor_block stop_gap batch_size
    (spks.length + 1) graph [] [] 0 spks

/-- `gapOK hist stop_gap count spks` holds when, starting from a running
consecutive-unused count of `count`, no run of consecutive empty-history
scripts in `spks` ever pushes the count above `stop_gap` (a used script
resets the count to zero, as in the source). -/
def gapOK {I : Type} (hist : Nat → List HistoryItem) (stop_gap : Nat) :
    Nat → List (I × Nat) → Bool
  | _, [] => true
  | count, (_, spk) :: rest =>
    match hist spk with
    | [] => decide (count + 1 ≤ stop_gap) && gapOK hist stop_gap (count + 1) rest
    | _ :: _ => gapOK hist stop_gap 0 rest

theorem processBatch_gapOK {I : Type} (ilt : I → I → Bool)
    (hist : Nat → List HistoryItem) (ab : BlockId) (sg : Nat)
    (batch : List (I × Nat)) :
    ∀ (rest : List (I × Nat)) (graph : GraphUpdate)
      (scanned : List (I × (Nat × Bool))) (count : Nat),
      gapOK hist sg count (batch ++ rest) = true →
      ∃ g sc c, processBatch ilt hist ab sg graph scanned count batch =
          (g, sc, c, false) ∧ gapOK hist sg c rest = true := by
  induction batch with
  | nil =>
    intro rest graph scanned count h
    exact ⟨graph, scanned, count, rfl, h⟩
  | cons x bs ih =>
    obtain ⟨i, spk⟩ := x
    intro rest graph scanned count h
    cases hx : hist spk with
    | nil =>
      simp only [List.cons_append, gapOK, hx, Bool.and_eq_true,
        decide_eq_true_eq] at h
      obtain ⟨h1, h2⟩ := h
      have hlt : ¬ sg < count + 1 := not_lt.mpr h1
      simp only [processBatch, hx, if_neg hlt]
      exact ih rest graph _ (count + 1) h2
    | cons e es =>
      simp only [List.cons_append, gapOK, hx] at h
      simp only [processBatch, hx]
      exact ih rest _ _ 0 h

theorem populateSpksLoop_no_stop {I : Type} (ilt : I → I → Bool)
    (hist : Nat → List HistoryItem) (ab : BlockId) (sg b : Nat) :
    ∀ (fuel : Nat) (spks : List (I × Nat)) (graph : GraphUpdate)
      (scanned : List (I × (Nat × Bool))) (queried : List I) (count : Nat),
      spks.length < fuel → gapOK hist sg count spks = true →
      (populateSpksLoop ilt hist ab sg (b + 1) fuel graph scanned queried count
          spks).stopped = false ∧
      (populateSpksLoop ilt hist ab sg (b + 1) fuel graph scanned queried count
          spks).queried = queried ++ spks.map (·.1) := by
  intro fuel
  induction fuel with
  | zero =>
    intro spks _ _ _ _ hlen
    omega
  | succ fuel ih =>
    intro spks graph scanned queried count hlen hgap
    match spks with
    | [] => simp [populateSpksLoop]
    | x :: tl =>
      have hgap' : gapOK hist sg count ((x :: tl.take b) ++ tl.drop b) = true := by
        rw [List.cons_append, List.take_append_drop]
        exact hgap
      obtain ⟨g, sc, c, hpb, hgap2⟩ :=
        processBatch_gapOK ilt hist ab sg (x :: tl.take b) (tl.drop b)
          graph scanned count hgap'
      have hlen' : (tl.drop b).length < fuel := by
        simp only [List.length_cons] at hlen
        simp only [List.length_drop]
        omega
      have hrec := ih (tl.drop b) g sc
        (queried ++ (x :: tl.take b).map (·.1)) c hlen' hgap2
      simp only [populateSpksLoop, List.take_succ_cons, List.drop_succ_cons, hpb]
      refine ⟨hrec.1, ?_⟩
      rw [hrec.2, List.append_assoc, ← List.map_append, List.cons_append,
        List.take_append_drop]

theorem populateSpksLoop_stop_batch_one {I : Type} (ilt : I → I → Bool)
    (hist : Nat → List HistoryItem) (ab : BlockId) (sg : Nat) :
    ∀ (fuel : Nat) (spks : List (I × Nat)) (graph : GraphUpdate)
      (scanned : List (I × (Nat × Bool))) (queried : List I) (count : Nat),
      spks.length < fuel → count ≤ sg →
      (∀ e ∈ spks.take (sg + 1 - count), hist e.2 = []) →
      sg + 1 - count ≤ spks.length →
      (populateSpksLoop ilt hist ab sg 1 fuel graph scanned queried count
          spks).queried = queried ++ (spks.take (sg + 1 - count)).map (·.1) ∧
      (populateSpksLoop ilt hist ab sg 1 fuel graph scanned queried count
          spks).stopped = true := by
  intro fuel
  induction fuel with
  | zero =>
    intro spks _ _ _ _ hlen
    omega
  | succ fuel ih =>
    intro spks graph scanned queried count hlen hcount hunused hrem
    match spks with
    | [] => simp at hrem; omega
    | x :: tl =>
      obtain ⟨i, spk⟩ := x
      have hx : hist spk = [] := by
        have : (⟨i, spk⟩ : I × Nat) ∈ ((i, spk) :: tl).take (sg + 1 - count) := by
          have h1 : sg + 1 - count = (sg - count) + 1 := by omega
          rw [h1, List.take_succ_cons]
          exact List.mem_cons_self _ _
        exact hunused _ this
      by_cases hstop : sg < count + 1
      · have hc : count = sg := by omega
        have htake : sg + 1 - count = 1 := by omega
        simp only [populateSpksLoop, List.take_succ_cons, List.take_zero,
          processBatch, hx, if_pos hstop, htake]
        simp
      · have h1 : sg + 1 - count = (sg - count) + 1 := by omega
        have hrec := ih tl graph (btreeInsert ilt scanned i (spk, false))
          (queried ++ [i]) (count + 1)
          (by simp only [List.length_cons] at hlen; omega)
          (by omega)
          (by
            intro e he
            apply hunused
            rw [h1, List.take_succ_cons]
            exact List.mem_cons_of_mem _ (by
              have h2 : sg + 1 - (count + 1) = sg - count := by omega
              rw [h2] at he
              exact he))
          (by
            simp only [List.length_cons] at hrem ⊢
            omega)
        simp only [populateSpksLoop, List.take_succ_cons, List.take_zero,
          List.drop_succ_cons, List.drop_zero, processBatch, hx,
          if_neg hstop, List.map_cons, List.map_nil]
        refine ⟨?_, hrec.2⟩
        rw [hrec.1, h1, List.take_succ_cons]
        have h2 : sg + 1 - (count + 1) = sg - count := by omega
        rw [h2]
        simp

/-- C3 counterexample: with `stop_gap = 0` and `batch_size = 2`, two
consecutive unused scripts are both queried in the same batch: the scan stops
after the first consecutive unused script (index 0, the `(G+1)`-th), yet
index 1 was also sent to `batch_script_get_history` — querying an index
beyond the `(G+1)`-th consecutive unused script. -/
theorem populate_with_spks_queries_beyond_gap :
    (populate_with_spks Nat.blt (fun _ => []) ⟨100, 1⟩ [] [(0, 10), (1, 11)]
        0 2).queried = [0, 1] ∧
    (populate_with_spks Nat.blt (fun _ => []) ⟨100, 1⟩ [] [(0, 10), (1, 11)]
        0 2).stopped = true ∧
    (populate_with_spks Nat.blt (fun _ => []) ⟨100, 1⟩ [] [(0, 10), (1, 11)]
        0 2).scanned = [(0, (10, false))] := by
  exact ⟨rfl, rfl, rfl⟩

/-- C3 (amended): `populate_with_spks` stops once more than `stop_gap`
consecutive scripts have empty remote history. With `batch_size = 1` the
stop is exact: a sequence starting with `stop_gap + 1` consecutive unused
scripts is queried precisely up to the `(stop_gap+1)`-th consecutive unused
script and no further. With a larger `batch_size` the remainder of the
in-flight batch may also be queried (see the counterexample). A script with
nonempty history resets the consecutive-unused count: whenever no run of
consecutive unused scripts pushes the count past `stop_gap`, the whole
sequence is scanned and the stop never fires. -/
theorem populate_with_spks_gap_limit {I : Type} (ilt : I → I → Bool)
    (hist : Nat → List HistoryItem) (ab : BlockId) (graph : GraphUpdate)
    (spks : List (I × Nat)) (stop_gap : Nat) :
    ((∀ e ∈ spks.take (stop_gap + 1), hist e.2 = []) →
      stop_gap + 1 ≤ spks.length →
      (populate_with_spks ilt hist ab graph spks stop_gap 1).queried =
        (spks.take (stop_gap + 1)).map (·.1) ∧
      (populate_with_spks ilt hist ab graph spks stop_gap 1).stopped = true) ∧
    (∀ batch_size, 0 < batch_size → gapOK hist stop_gap 0 spks = true →
      (populate_with_spks ilt hist ab graph spks stop_gap batch_size).stopped =
        false ∧
      (populate_with_spks ilt hist ab graph spks stop_gap batch_size).queried =
        spks.map (·.1)) := by
  constructor
  · intro hunused hlen
    have h := populateSpksLoop_stop_batch_one ilt hist ab stop_gap
      (spks.length + 1) spks graph [] [] 0 (by omega) (by omega)
      (by simpa using hunused) (by simpa using hlen)
    simpa [populate_with_spks] using h
  · intro batch_size hbs hgap
    obtain ⟨b, rfl⟩ : ∃ b, batch_size = b + 1 := ⟨batch_size - 1, by omega⟩
    have h := populateSpksLoop_no_stop ilt hist ab stop_gap b
      (spks.length + 1) spks graph [] [] 0 (by omega) hgap
    simpa [populate_with_spks] using h

/-- Witness for C3 (amended): with `stop_gap = 1` and `batch_size = 1`, three
consecutive unused scripts are queried only up to index 1; and with a used
script at index 1 separating two single-script unused runs, a
`batch_size = 2` scan covers all three scripts without stopping. -/
theorem populate_with_spks_gap_limit_witness :
    ((populate_with_spks Nat.blt (fun _ => []) ⟨100, 1⟩ []
        [(0, 10), (1, 11), (2, 12)] 1 1).queried = [0, 1] ∧
      (populate_with_spks Nat.blt (fun _ => []) ⟨100, 1⟩ []
        [(0, 10), (1, 11), (2, 12)] 1 1).stopped = true) ∧
    ((populate_with_spks Nat.blt
        (fun s => if s = 11 then [⟨5, 3⟩] else []) ⟨100, 1⟩ []
        [(0, 10), (1, 11), (2, 12)] 1 2).stopped = false ∧
      (populate_with_spks Nat.blt
        (fun s => if s = 11 then [⟨5, 3⟩] else []) ⟨100, 1⟩ []
        [(0, 10), (1, 11), (2, 12)] 1 2).queried = [0, 1, 2]) := by
  constructor
  · have h := (populate_with_spks_gap_limit Nat.blt (fun _ => []) ⟨100, 1⟩ []
      [(0, 10), (1, 11), (2, 12)] 1).1 (by decide) (by decide)
    exact h
  · have h := (populate_with_spks_gap_limit Nat.blt
      (fun s => if s = 11 then [⟨5, 3⟩] else []) ⟨100, 1⟩ []
      [(0, 10), (1, 11), (2, 12)] 1).2 2 (by decide) (by decide)
    exact h

/-! ## Targeted lookups (`populate_with_txids`, `populate_with_outpoints`) -/

/-- `electrum_client::Error`, split into the `Protocol` variant (which
`populate_with_txids` swallows) and every other variant (propagated). -/
inductive ElectrumError where
  | protocol (code : Nat)
  | other (code : Nat)
deriving DecidableEq, Repr

/-- `bitcoin::OutPoint`. -/
structure OutPoint where
  txid : Nat
  vout : Nat
deriving DecidableEq, Repr

/-- `bitcoin::TxIn`, keeping only the field the engine reads. -/
structure TxIn where
  previous_output : OutPoint
deriving DecidableEq, Repr

/-- `bitcoin::Transaction`: its computed txid, inputs, and the script pubkey
of each output. -/
structure Transaction where
  txid : Nat
  input : List TxIn
  output : List Nat
deriving DecidableEq, Repr

/-- `populate_with_txids` from `crates/electrum/src/electrum_ext.rs`.
`tx_get` is the client's `transaction_get` (fallible), `hist` its
`script_get_history` (modelled on the error-free path). The outer `none`
denotes the `expect("tx must have an output")` panic. -/
def populate_with_txids (tx_get : Nat → Except ElectrumError Transaction)
    (hist : Nat → List HistoryItem) (anchor_block : BlockId)
    (graph : GraphUpdate) : List Nat → Option (Except ElectrumError GraphUpdate)
  | [] => some (Except.ok graph)
  | txid :: rest =>
    match tx_get txid with
    | Except.error (ElectrumError.protocol _) =>
      populate_with_txids tx_get hist anchor_block graph rest
    | Except.error e => some (Except.error e)
    | Except.ok tx =>
      match tx.output.head? with
      | none => none
      | some spk =>
        match (hist spk).find? (fun r => r.tx_hash == txid) with
        | none => populate_with_txids tx_get hist anchor_block graph rest
        | some r =>
          populate_with_txids tx_get hist anchor_block
            (graphInsert graph txid
              (determine_tx_anchor anchor_block r.height txid)) rest

theorem populate_with_txids_ok (tx_get : Nat → Except ElectrumError Transaction)
    (hist : Nat → List HistoryItem) (ab : BlockId) (txids : List Nat) :
    ∀ graph : GraphUpdate,
      (∀ t ∈ txids,
        (∃ c, tx_get t = Except.error (ElectrumError.protocol c)) ∨
        ∃ tx, tx_get t = Except.ok tx ∧ tx.output ≠ []) →
      ∃ g, populate_with_txids tx_get hist ab graph txids =
        some (Except.ok g) := by
  induction txids with
  | nil =>
    intro graph _
    exact ⟨graph, rfl⟩
  | cons t rest ih =>
    intro graph hall
    rcases hall t (List.mem_cons_self t rest) with ⟨c, hc⟩ | ⟨tx, htx, hout⟩
    · simp only [populate_with_txids, hc]
      exact ih graph (fun t' ht' => hall t' (List.mem_cons_of_mem _ ht'))
    · obtain ⟨spk, os, ho⟩ : ∃ spk os, tx.output = spk :: os := by
        cases ho : tx.output with
        | nil => exact absurd ho hout
        | cons a l => exact ⟨a, l, rfl⟩
      simp only [populate_with_txids, htx, ho, List.head?]
      cases hfind : (hist spk).find? (fun r => r.tx_hash == t) with
      | none =>
        exact ih graph (fun t' ht' => hall t' (List.mem_cons_of_mem _ ht'))
      | some r =>
        exact ih _ (fun t' ht' => hall t' (List.mem_cons_of_mem _ ht'))

/-- C8: a `Protocol` error fetching one txid is skipped — the call behaves
exactly as if that txid were absent — and when every requested txid either
fetches successfully (with at least one output) or fails with a `Protocol`
error, the call returns success; any other error fetching a txid aborts the
call immediately, returning that error. -/
theorem populate_with_txids_error_handling
    (tx_get : Nat → Except ElectrumError Transaction)
    (hist : Nat → List HistoryItem) (ab : BlockId) (graph : GraphUpdate) :
    (∀ (t c : Nat) (rest : List Nat),
      tx_get t = Except.error (ElectrumError.protocol c) →
      populate_with_txids tx_get hist ab graph (t :: rest) =
        populate_with_txids tx_get hist ab graph rest) ∧
    (∀ (t c : Nat) (rest : List Nat),
      tx_get t = Except.error (ElectrumError.other c) →
      populate_with_txids tx_get hist ab graph (t :: rest) =
        some (Except.error (ElectrumError.other c))) ∧
    (∀ txids : List Nat,
      (∀ t ∈ txids,
        (∃ c, tx_get t = Except.error (ElectrumError.protocol c)) ∨
        ∃ tx, tx_get t = Except.ok tx ∧ tx.output ≠ []) →
      ∃ g, populate_with_txids tx_get hist ab graph txids =
        some (Except.ok g)) := by
  refine ⟨?_, ?_, ?_⟩
  · intro t c rest hc
    simp only [populate_with_txids, hc]
  · intro t c rest hc
    simp only [populate_with_txids, hc]
  · intro txids hall
    exact populate_with_txids_ok tx_get hist ab txids graph hall

/-- Witness for C8: a protocol failure on txid 1 is skipped while txid 2 is
processed and the call succeeds; an `other` failure on txid 3 aborts. -/
theorem populate_with_txids_error_handling_witness :
    populate_with_txids
        (fun t => if t = 1 then Except.error (ElectrumError.protocol 9)
          else if t = 2 then Except.ok ⟨2, [], [20]⟩
          else Except.error (ElectrumError.other 7))
        (fun s => if s = 20 then [⟨2, 3⟩] else []) ⟨100, 1⟩ [] [1, 2] =
      some (Except.ok [(2, [⟨⟨100, 1⟩, 3⟩])]) ∧
    populate_with_txids
        (fun t => if t = 1 then Except.error (ElectrumError.protocol 9)
          else if t = 2 then Except.ok ⟨2, [], [20]⟩
          else Except.error (ElectrumError.other 7))
        (fun s => if s = 20 then [⟨2, 3⟩] else []) ⟨100, 1⟩ [] [3, 2] =
      some (Except.error (ElectrumError.other 7)) := by
  constructor
  · have h1 := (populate_with_txids_error_handling
      (fun t => if t = 1 then Except.error (ElectrumError.protocol 9)
        else if t = 2 then Except.ok ⟨2, [], [20]⟩
        else Except.error (ElectrumError.other 7))
      (fun s => if s = 20 then [⟨2, 3⟩] else []) ⟨100, 1⟩ []).1 1 9 [2] rfl
    rw [h1]
    rfl
  · exact (populate_with_txids_error_handling
      (fun t => if t = 1 then Except.error (ElectrumError.protocol 9)
        else if t = 2 then Except.ok ⟨2, [], [20]⟩
        else Except.error (ElectrumError.other 7))
      (fun s => if s = 20 then [⟨2, 3⟩] else []) ⟨100, 1⟩ []).2.1 3 7 [2] rfl

/-- `HashMap::insert` on an association list (replaces an existing key). -/
def hashInsert {β : Type} : List (Nat × β) → Nat → β → List (Nat × β)
  | [], k, v => [(k, v)]
  | (k0, v0) :: rest, k, v =>
    if k0 = k then (k, v) :: rest else (k0, v0) :: hashInsert rest k v

/-- `HashMap::get` on an association list. -/
def hashGet {β : Type} (m : List (Nat × β)) (k : Nat) : Option β :=
  (m.find? (fun e => e.1 == k)).map (·.2)

theorem hashGet_insert {β : Type} (m : List (Nat × β)) (k k' : Nat) (v : β) :
    hashGet (hashInsert m k v) k' = if k' = k then some v else hashGet m k' := by
  induction m with
  | nil =>
    by_cases h : k' = k
    · subst h
      simp [hashGet, hashInsert]
    · have hb : ((k, v).1 == k') = false := beq_eq_false_iff_ne.mpr (Ne.symm h)
      simp [hashGet, hashInsert, List.find?_cons_of_neg, hb, h]
  | cons e rest ih =>
    obtain ⟨k0, v0⟩ := e
    by_cases h0 : k0 = k
    · subst h0
      simp only [hashInsert, if_pos rfl]
      by_cases h : k' = k0
      · have hb : ((k0, v).1 == k') = true := beq_iff_eq.mpr h.symm
        have hb0 : ((k0, v0).1 == k') = true := beq_iff_eq.mpr h.symm
        simp [hashGet, List.find?_cons, hb, hb0, h]
      · have hb : ((k0, v).1 == k') = false := beq_eq_false_iff_ne.mpr (Ne.symm h)
        have hb0 : ((k0, v0).1 == k') = false := beq_eq_false_iff_ne.mpr (Ne.symm h)
        simp [hashGet, List.find?_cons, hb, hb0, h]
    · simp only [hashInsert, if_neg h0]
      by_cases h : k' = k0
      · have hb0 : ((k0, v0).1 == k') = true := beq_iff_eq.mpr h.symm
        have hne : ¬ k' = k := by
          rw [h]
          exact fun hk => h0 hk
        simp [hashGet, List.find?_cons, hb0, hne]
      · have hb0 : ((k0, v0).1 == k') = false := beq_eq_false_iff_ne.mpr (Ne.symm h)
        simp only [hashGet, List.find?_cons, hb0] at ih ⊢
        simpa using ih

/-- The loop over `client.script_get_history(&txout.script_pubkey)?` inside
`populate_with_outpoints`, with its `has_residing` / `has_spending` state.
`tx` is the already-fetched transaction residing at the outpoint `op`. -/
def outpointHistLoop (tx_get : Nat → Except ElectrumError Transaction)
    (ab : BlockId) (op : OutPoint) (tx : Transaction) :
    Bool → Bool → List (Nat × Transaction) → GraphUpdate → List HistoryItem →
    Except ElectrumError (List (Nat × Transaction) × GraphUpdate)
  | _, _, full, graph, [] => Except.ok (full, graph)
  | hr, hs, full, graph, res :: rest =>
    if hr && hs then Except.ok (full, graph)
    else if res.tx_hash = op.txid then
      if hr then outpointHistLoop tx_get ab op tx hr hs full graph rest
      else
        outpointHistLoop tx_get ab op tx true hs
          (hashInsert full res.tx_hash tx)
          (graphInsert graph res.tx_hash
            (determine_tx_anchor ab res.height res.tx_hash)) rest
    else
      if hs then outpointHistLoop tx_get ab op tx hr hs full graph rest
      else
        match hashGet full res.tx_hash with
        | some res_tx =>
          if res_tx.input.any (fun i => i.previous_output == op) then
            outpointHistLoop tx_get ab op tx hr true full
              (graphInsert graph res.tx_hash
                (determine_tx_anchor ab res.height res.tx_hash)) rest
          else outpointHistLoop tx_get ab op tx hr hs full graph rest
        | none =>
          match tx_get res.tx_hash with
          | Except.error e => Except.error e
          | Except.ok res_tx =>
            if res_tx.input.any (fun i => i.previous_output == op) then
              outpointHistLoop tx_get ab op tx hr true
                (hashInsert full res.tx_hash res_tx)
                (graphInsert graph res.tx_hash
                  (determine_tx_anchor ab res.height res.tx_hash)) rest
            else
              outpointHistLoop tx_get ab op tx hr hs
                (hashInsert full res.tx_hash res_tx) graph rest

/-- `populate_with_outpoints` from `crates/electrum/src/electrum_ext.rs`:
for each outpoint, fetch its owning transaction, look up the referenced
output's script history, and scan it for the residing and first spending
transaction. Returns the full-transaction cache alongside the updated graph.
The release-mode no-op `debug_assert_eq!(tx.txid(), txid)` is not
modelled. -/
def populate_with_outpoints (tx_get : Nat → Except ElectrumError Transaction)
    (hist : Nat → List HistoryItem) (ab : BlockId) :
    List (Nat × Transaction) → GraphUpdate → List OutPoint →
    Except ElectrumError (List (Nat × Transaction) × GraphUpdate)
  | full, graph, [] => Except.ok (full, graph)
  | full, graph, op :: ops =>
    match tx_get op.txid with
    | Except.error e => Except.error e
    | Except.ok tx =>
      match tx.output.get? op.vout with
      | none => populate_with_outpoints tx_get hist ab full graph ops
      | some spk =>
        match outpointHistLoop tx_get ab op tx false false full graph
            (hist spk) with
        | Except.error e => Except.error e
        | Except.ok (full1, graph1) =>
          populate_with_outpoints tx_get hist ab full1 graph1 ops

/-- The history entry at which the residing transaction is recognised. -/
def residesB (op : OutPoint) (e : HistoryItem) : Bool :=
  e.tx_hash == op.txid

/-- The history entry at which the spending transaction is recognised: a
different txid whose (fetched) transaction has an input consuming `op`. -/
def spendsB (tx_get : Nat → Except ElectrumError Transaction) (op : OutPoint)
    (e : HistoryItem) : Bool :=
  e.tx_hash != op.txid &&
    match tx_get e.tx_hash with
    | Except.ok etx => etx.input.any (fun i => i.previous_output == op)
    | Except.error _ => false

/-- The effect of `graphInsert` on the entry of its key. -/
def applyAnchorOpt (s : List ConfirmationHeightAnchor) :
    Option ConfirmationHeightAnchor → List ConfirmationHeightAnchor
  | some a => insertAnchor s a
  | none => s

theorem applyAnchorOpt_nil (a? : Option ConfirmationHeightAnchor) :
    applyAnchorOpt [] a? = a?.toList := by
  cases a? <;> simp [applyAnchorOpt, insertAnchor]

theorem graphGet_insert_self (g : GraphUpdate) (k : Nat)
    (a? : Option ConfirmationHeightAnchor) :
    graphGet (graphInsert g k a?) k =
      some (applyAnchorOpt ((graphGet g k).getD []) a?) := by
  induction g with
  | nil =>
    cases a? <;> simp [graphGet, graphInsert, applyAnchorOpt, List.find?_cons,
      insertAnchor]
  | cons e rest ih =>
    obtain ⟨t, s⟩ := e
    by_cases ht : t = k
    · subst ht
      cases a? <;> simp [graphGet, graphInsert, applyAnchorOpt, List.find?_cons]
    · have hb : (t == k) = false := beq_eq_false_iff_ne.mpr ht
      simp only [graphInsert, if_neg ht]
      simp only [graphGet, List.find?_cons, hb] at ih ⊢
      exact ih

theorem graphGet_insert_ne (g : GraphUpdate) (k k' : Nat)
    (a? : Option ConfirmationHeightAnchor) (h : k' ≠ k) :
    graphGet (graphInsert g k' a?) k = graphGet g k := by
  induction g with
  | nil =>
    have hb : (k' == k) = false := beq_eq_false_iff_ne.mpr h
    simp [graphGet, graphInsert, List.find?_cons, hb]
  | cons e rest ih =>
    obtain ⟨t, s⟩ := e
    by_cases ht : t = k'
    · subst ht
      have hb : (t == k) = false := beq_eq_false_iff_ne.mpr h
      simp [graphGet, graphInsert, List.find?_cons, hb]
    · simp only [graphInsert, if_neg ht]
      by_cases htk : t = k
      · subst htk
        simp [graphGet, List.find?_cons]
      · have hb : (t == k) = false := beq_eq_false_iff_ne.mpr htk
        simp only [graphGet, List.find?_cons, hb] at ih ⊢
        exact ih

theorem outpointHistLoop_done (tx_get : Nat → Except ElectrumError Transaction)
    (ab : BlockId) (op : OutPoint) (tx : Transaction)
    (full : List (Nat × Transaction)) (graph : GraphUpdate)
    (entries : List HistoryItem) :
    outpointHistLoop tx_get ab op tx true true full graph entries =
      Except.ok (full, graph) := by
  cases entries with
  | nil => rfl
  | cons e rest => simp [outpointHistLoop]

theorem outpointHistLoop_seek_spending
    (tx_get : Nat → Except ElectrumError Transaction) (ab : BlockId)
    (op : OutPoint) (tx : Transaction) (entries : List HistoryItem) :
    ∀ (full : List (Nat × Transaction)) (graph : GraphUpdate),
      (∀ k t, hashGet full k = some t → tx_get k = Except.ok t) →
      (∀ e ∈ entries, e.tx_hash ≠ op.txid →
        ∃ etx, tx_get e.tx_hash = Except.ok etx) →
      ∃ full', outpointHistLoop tx_get ab op tx true false full graph entries =
        Except.ok (full',
          match entries.find? (spendsB tx_get op) with
          | some s =>
            graphInsert graph s.tx_hash
              (determine_tx_anchor ab s.height s.tx_hash)
          | none => graph) := by
  induction entries with
  | nil =>
    intro full graph _ _
    exact ⟨full, rfl⟩
  | cons e rest ih =>
    intro full graph hinv hok
    have hok' : ∀ e' ∈ rest, e'.tx_hash ≠ op.txid →
        ∃ etx, tx_get e'.tx_hash = Except.ok etx :=
      fun e' he' => hok e' (List.mem_cons_of_mem _ he')
    by_cases hres : e.tx_hash = op.txid
    · have hsB : ¬ spendsB tx_get op e = true := by
        simp [spendsB, hres]
      rw [List.find?_cons_of_neg _ hsB]
      simp only [outpointHistLoop, Bool.and_false, Bool.false_eq_true,
        if_neg, if_pos hres, if_pos rfl]
      exact ih full graph hinv hok'
    · obtain ⟨etx, hetx⟩ := hok e (List.mem_cons_self e rest) hres
      have hsB : spendsB tx_get op e =
          etx.input.any (fun i => i.previous_output == op) := by
        simp [spendsB, hres, hetx]
      cases hcache : hashGet full e.tx_hash with
      | some rtx =>
        have hrtx : tx_get e.tx_hash = Except.ok rtx := hinv _ _ hcache
        have hre : rtx = etx := by
          rw [hetx] at hrtx
          exact (Except.ok.injEq _ _ ▸ hrtx).symm ▸ rfl
        subst hre
        by_cases hany : rtx.input.any (fun i => i.previous_output == op) = true
        · have hsp : spendsB tx_get op e = true := by rw [hsB]; exact hany
          rw [List.find?_cons_of_pos _ hsp]
          simp only [outpointHistLoop, Bool.and_false, Bool.false_eq_true,
            if_neg, if_neg hres, hcache, if_pos hany]
          exact ⟨full, outpointHistLoop_done tx_get ab op tx full _ rest⟩
        · have hsp : ¬ spendsB tx_get op e = true := by rw [hsB]; exact hany
          rw [List.find?_cons_of_neg _ hsp]
          simp only [outpointHistLoop, Bool.and_false, Bool.false_eq_true,
            if_neg, if_neg hres, hcache, if_neg hany]
          exact ih full graph hinv hok'
      | none =>
        by_cases hany : etx.input.any (fun i => i.previous_output == op) = true
        · have hsp : spendsB tx_get op e = true := by rw [hsB]; exact hany
          rw [List.find?_cons_of_pos _ hsp]
          simp only [outpointHistLoop, Bool.and_false, Bool.false_eq_true,
            if_neg, if_neg hres, hcache, hetx, if_pos hany]
          exact ⟨hashInsert full e.tx_hash etx,
            outpointHistLoop_done tx_get ab op tx _ _ rest⟩
        · have hsp : ¬ spendsB tx_get op e = true := by rw [hsB]; exact hany
          rw [List.find?_cons_of_neg _ hsp]
          simp only [outpointHistLoop, Bool.and_false, Bool.false_eq_true,
            if_neg, if_neg hres, hcache, hetx, if_neg hany]
          refine ih (hashInsert full e.tx_hash etx) graph ?_ hok'
          intro k t hk
          rw [hashGet_insert] at hk
          by_cases hke : k = e.tx_hash
          · rw [if_pos hke] at hk
            cases hk
            rw [hke]
            exact hetx
          · rw [if_neg hke] at hk
            exact hinv _ _ hk

theorem outpointHistLoop_seek_residing
    (tx_get : Nat → Except ElectrumError Transaction) (ab : BlockId)
    (op : OutPoint) (tx : Transaction) (entries : List HistoryItem) :
    ∀ (full : List (Nat × Transaction)) (graph : GraphUpdate),
      ∃ full', outpointHistLoop tx_get ab op tx false true full graph entries =
        Except.ok (full',
          match entries.find? (residesB op) with
          | some r =>
            graphInsert graph r.tx_hash
              (determine_tx_anchor ab r.height r.tx_hash)
          | none => graph) := by
  induction entries with
  | nil =>
    intro full graph
    exact ⟨full, rfl⟩
  | cons e rest ih =>
    intro full graph
    by_cases hres : e.tx_hash = op.txid
    · have hrB : residesB op e = true := beq_iff_eq.mpr hres
      rw [List.find?_cons_of_pos _ hrB]
      simp only [outpointHistLoop, Bool.false_and, Bool.false_eq_true,
        if_neg, if_pos hres]
      exact ⟨hashInsert full e.tx_hash tx,
        outpointHistLoop_done tx_get ab op tx _ _ rest⟩
    · have hrB : ¬ residesB op e = true := by
        simp [residesB, hres]
      rw [List.find?_cons_of_neg _ hrB]
      simp only [outpointHistLoop, Bool.false_and, Bool.false_eq_true,
        if_neg, if_neg hres, if_pos rfl]
      exact ih full graph

theorem outpointHistLoop_finds_both
    (tx_get : Nat → Except ElectrumError Transaction) (ab : BlockId)
    (op : OutPoint) (tx : Transaction) (entries : List HistoryItem) :
    ∀ (full : List (Nat × Transaction)) (graph : GraphUpdate)
      (r s : HistoryItem),
      (∀ k t, hashGet full k = some t → tx_get k = Except.ok t) →
      (∀ e ∈ entries, e.tx_hash ≠ op.txid →
        ∃ etx, tx_get e.tx_hash = Except.ok etx) →
      tx_get op.txid = Except.ok tx →
      entries.find? (residesB op) = some r →
      entries.find? (spendsB tx_get op) = some s →
      ∃ full' G,
        outpointHistLoop tx_get ab op tx false false full graph entries =
          Except.ok (full', G) ∧
        graphGet G r.tx_hash =
          graphGet (graphInsert graph r.tx_hash
            (determine_tx_anchor ab r.height r.tx_hash)) r.tx_hash ∧
        graphGet G s.tx_hash =
          graphGet (graphInsert graph s.tx_hash
            (determine_tx_anchor ab s.height s.tx_hash)) s.tx_hash := by
  induction entries with
  | nil =>
    intro full graph r s _ _ _ hfr
    simp at hfr
  | cons e rest ih =>
    intro full graph r s hinv hok htx hfr hfs
    have hok' : ∀ e' ∈ rest, e'.tx_hash ≠ op.txid →
        ∃ etx, tx_get e'.tx_hash = Except.ok etx :=
      fun e' he' => hok e' (List.mem_cons_of_mem _ he')
    have hrk : r.tx_hash = op.txid := by
      have := List.find?_some hfr
      exact beq_iff_eq.mp this
    have hsk : s.tx_hash ≠ op.txid := by
      have := List.find?_some hfs
      have hbne := (Bool.and_eq_true _ _ ▸ this).1
      exact bne_iff_ne.mp hbne
    have hrs : s.tx_hash ≠ r.tx_hash := by rw [hrk]; exact hsk
    by_cases hres : e.tx_hash = op.txid
    · -- the residing transaction is found first
      have hrB : residesB op e = true := beq_iff_eq.mpr hres
      have hre : r = e := by
        rw [List.find?_cons_of_pos _ hrB] at hfr
        exact (Option.some.injEq _ _ ▸ hfr).symm ▸ rfl
      have hsB : ¬ spendsB tx_get op e = true := by
        simp [spendsB, hres]
      rw [List.find?_cons_of_neg _ hsB] at hfs
      have hrs' : s.tx_hash ≠ e.tx_hash := by rw [← hre]; exact hrs
      have hrs'' : e.tx_hash ≠ s.tx_hash := fun hh => hrs' hh.symm
      have hinv1 : ∀ k t,
          hashGet (hashInsert full e.tx_hash tx) k = some t →
          tx_get k = Except.ok t := by
        intro k t hk
        rw [hashGet_insert] at hk
        by_cases hke : k = e.tx_hash
        · rw [if_pos hke] at hk
          cases hk
          rw [hke, hres]
          exact htx
        · rw [if_neg hke] at hk
          exact hinv _ _ hk
      obtain ⟨full', hloop⟩ := outpointHistLoop_seek_spending tx_get ab op tx
        rest (hashInsert full e.tx_hash tx)
        (graphInsert graph e.tx_hash
          (determine_tx_anchor ab e.height e.tx_hash)) hinv1 hok'
      rw [hfs] at hloop
      rw [hre]
      refine ⟨full',
        graphInsert (graphInsert graph e.tx_hash
          (determine_tx_anchor ab e.height e.tx_hash)) s.tx_hash
          (determine_tx_anchor ab s.height s.tx_hash), ?_, ?_, ?_⟩
      · simp only [outpointHistLoop, Bool.false_and, Bool.false_eq_true,
          if_neg, if_pos hres]
        exact hloop
      · rw [graphGet_insert_ne _ _ _ _ hrs']
      · rw [graphGet_insert_self, graphGet_insert_self,
          graphGet_insert_ne _ _ _ _ hrs'']
    · -- not the residing transaction
      have hrB : ¬ residesB op e = true := by
        simp [residesB, hres]
      rw [List.find?_cons_of_neg _ hrB] at hfr
      obtain ⟨etx, hetx⟩ := hok e (List.mem_cons_self e rest) hres
      have hsB : spendsB tx_get op e =
          etx.input.any (fun i => i.previous_output == op) := by
        simp [spendsB, hres, hetx]
      have hsr : r.tx_hash ≠ s.tx_hash := fun hh => hrs hh.symm
      by_cases hany : etx.input.any (fun i => i.previous_output == op) = true
      · -- the spending transaction is found first
        have hsp : spendsB tx_get op e = true := by rw [hsB]; exact hany
        have hse : s = e := by
          rw [List.find?_cons_of_pos _ hsp] at hfs
          exact (Option.some.injEq _ _ ▸ hfs).symm ▸ rfl
        subst hse
        obtain ⟨full', hloop⟩ := outpointHistLoop_seek_residing tx_get ab op tx
          rest (hashInsert full s.tx_hash etx)
          (graphInsert graph s.tx_hash
            (determine_tx_anchor ab s.height s.tx_hash))
        rw [hfr] at hloop
        cases hcache : hashGet full s.tx_hash with
        | some rtx =>
          have hrtx : tx_get s.tx_hash = Except.ok rtx := hinv _ _ hcache
          have hre : rtx = etx := by
            rw [hetx] at hrtx
            exact (Except.ok.injEq _ _ ▸ hrtx).symm ▸ rfl
          subst hre
          obtain ⟨full2, hloop2⟩ := outpointHistLoop_seek_residing tx_get ab op
            tx rest full
            (graphInsert graph s.tx_hash
              (determine_tx_anchor ab s.height s.tx_hash))
          rw [hfr] at hloop2
          refine ⟨full2,
            graphInsert (graphInsert graph s.tx_hash
              (determine_tx_anchor ab s.height s.tx_hash)) r.tx_hash
              (determine_tx_anchor ab r.height r.tx_hash), ?_, ?_, ?_⟩
          · simp only [outpointHistLoop, Bool.false_and, Bool.false_eq_true,
              if_neg, if_neg hres, hcache, if_pos hany]
            exact hloop2
          · rw [graphGet_insert_self, graphGet_insert_self,
              graphGet_insert_ne _ _ _ _ hrs]
          · rw [graphGet_insert_ne _ _ _ _ hsr]
        | none =>
          refine ⟨full',
            graphInsert (graphInsert graph s.tx_hash
              (determine_tx_anchor ab s.height s.tx_hash)) r.tx_hash
              (determine_tx_anchor ab r.height r.tx_hash), ?_, ?_, ?_⟩
          · simp only [outpointHistLoop, Bool.false_and, Bool.false_eq_true,
              if_neg, if_neg hres, hcache, hetx, if_pos hany]
            exact hloop
          · rw [graphGet_insert_self, graphGet_insert_self,
              graphGet_insert_ne _ _ _ _ hrs]
          · rw [graphGet_insert_ne _ _ _ _ hsr]
      · -- neither: skip this entry
        have hsp : ¬ spendsB tx_get op e = true := by rw [hsB]; exact hany
        rw [List.find?_cons_of_neg _ hsp] at hfs
        cases hcache : hashGet full e.tx_hash with
        | some rtx =>
          have hrtx : tx_get e.tx_hash = Except.ok rtx := hinv _ _ hcache
          have hre : rtx = etx := by
            rw [hetx] at hrtx
            exact (Except.ok.injEq _ _ ▸ hrtx).symm ▸ rfl
          subst hre
          obtain ⟨full', G, hloop, h1, h2⟩ :=
            ih full graph r s hinv hok' htx hfr hfs
          refine ⟨full', G, ?_, h1, h2⟩
          simp only [outpointHistLoop, Bool.false_and, Bool.false_eq_true,
            if_neg, if_neg hres, hcache, if_neg hany]
          exact hloop
        | none =>
          have hinv1 : ∀ k t,
              hashGet (hashInsert full e.tx_hash etx) k = some t →
              tx_get k = Except.ok t := by
            intro k t hk
            rw [hashGet_insert] at hk
            by_cases hke : k = e.tx_hash
            · rw [if_pos hke] at hk
              cases hk
              rw [hke]
              exact hetx
            · rw [if_neg hke] at hk
              exact hinv _ _ hk
          obtain ⟨full', G, hloop, h1, h2⟩ :=
            ih (hashInsert full e.tx_hash etx) graph r s hinv1 hok' htx hfr hfs
          refine ⟨full', G, ?_, h1, h2⟩
          simp only [outpointHistLoop, Bool.false_and, Bool.false_eq_true,
            if_neg, if_neg hres, hcache, hetx, if_neg hany]
          exact hloop

/-- C5: for an outpoint whose owning transaction and a spending transaction
both appear in the history of the outpoint's script, `populate_with_outpoints`
succeeds and its graph map holds an entry for the residing txid and one for
the spending txid, each carrying exactly the classified anchor of the *first*
matching history entry (the singleton `toList` of the classifier's result, so
a confirmed classification contributes one anchor and an unconfirmed one
contributes the bare txid) — duplicate history entries contribute nothing
further. -/
theorem populate_with_outpoints_spend_detection
    (tx_get : Nat → Except ElectrumError Transaction)
    (hist : Nat → List HistoryItem) (ab : BlockId) (op : OutPoint)
    (tx : Transaction) (spk : Nat) (r s : HistoryItem)
    (h_tx : tx_get op.txid = Except.ok tx)
    (h_vout : tx.output.get? op.vout = some spk)
    (hok : ∀ e ∈ hist spk, e.tx_hash ≠ op.txid →
      ∃ etx, tx_get e.tx_hash = Except.ok etx)
    (hres : (hist spk).find? (residesB op) = some r)
    (hsp : (hist spk).find? (spendsB tx_get op) = some s) :
    ∃ full G,
      populate_with_outpoints tx_get hist ab [] [] [op] =
        Except.ok (full, G) ∧
      graphGet G r.tx_hash =
        some (determine_tx_anchor ab r.height r.tx_hash).toList ∧
      graphGet G s.tx_hash =
        some (determine_tx_anchor ab s.height s.tx_hash).toList := by
  obtain ⟨full', G, hloop, h1, h2⟩ :=
    outpointHistLoop_finds_both tx_get ab op tx (hist spk) [] [] r s
      (by intro k t hk; simp [hashGet] at hk) hok h_tx hres hsp
  refine ⟨full', G, ?_, ?_, ?_⟩
  · simp only [populate_with_outpoints, h_tx, h_vout, hloop]
  · rw [h1, graphGet_insert_self]
    simp [graphGet, applyAnchorOpt_nil]
  · rw [h2, graphGet_insert_self]
    simp [graphGet, applyAnchorOpt_nil]

/-- Witness for C5: outpoint `1:0` whose script history lists the residing
tx `1` (twice — a duplicate entry) and the spending tx `2`; both end up in
the graph map with exactly one classified anchor each. -/
theorem populate_with_outpoints_spend_detection_witness :
    ∃ full G,
      populate_with_outpoints
        (fun t => if t = 1 then Except.ok ⟨1, [], [20]⟩
          else if t = 2 then Except.ok ⟨2, [⟨⟨1, 0⟩⟩], [21]⟩
          else Except.error (ElectrumError.other 0))
        (fun s => if s = 20 then [⟨1, 5⟩, ⟨2, 6⟩, ⟨1, 5⟩] else [])
        ⟨100, 9⟩ [] [] [⟨1, 0⟩] = Except.ok (full, G) ∧
      graphGet G 1 = some [⟨⟨100, 9⟩, 5⟩] ∧
      graphGet G 2 = some [⟨⟨100, 9⟩, 6⟩] := by
  have h := populate_with_outpoints_spend_detection
    (fun t => if t = 1 then Except.ok ⟨1, [], [20]⟩
      else if t = 2 then Except.ok ⟨2, [⟨⟨1, 0⟩⟩], [21]⟩
      else Except.error (ElectrumError.other 0))
    (fun s => if s = 20 then [⟨1, 5⟩, ⟨2, 6⟩, ⟨1, 5⟩] else [])
    ⟨100, 9⟩ ⟨1, 0⟩ ⟨1, [], [20]⟩ 20 ⟨1, 5⟩ ⟨2, 6⟩ rfl rfl
    (by
      intro e he hne
      fin_cases he
      · exact absurd rfl hne
      · exact ⟨⟨2, [⟨⟨1, 0⟩⟩], [21]⟩, rfl⟩
      · exact absurd rfl hne)
    rfl rfl
  obtain ⟨full, G, h1, h2, h3⟩ := h
  exact ⟨full, G, h1, by rw [h2]; rfl, by rw [h3]; rfl⟩

/-! ## Checkpoint chain reconciler (`prepare_chain_update`) -/

/-- Strict `Nat` comparator for the `BTreeMap<u32, BlockHash>` model. -/
def natLtB (a b : Nat) : Bool := decide (a < b)

/-- A `CheckPoint` chain: the node's block and its ancestry as a list of
blocks with strictly decreasing heights, head = tip (`CheckPoint::iter`
order). -/
abbrev CPChain := List BlockId

/-- `CheckPoint::extend`: push a block of strictly greater height, failing
otherwise. -/
def extendCP (cp : CPChain) (b : BlockId) : Option CPChain :=
  match cp with
  | [] => none
  | top :: rest => if top.height < b.height then some (b :: top :: rest) else none

/-- The construct-checkpoints loop at the end of `prepare_chain_update`:
fold the new blocks in ascending height order, starting from the agreement
node (or nothing), extending (`None` of the outer `Option` models the
`expect("must extend checkpoint")` panic). -/
def buildChain (init : Option CPChain) (blocks : List (Nat × Nat)) :
    Option (Option CPChain) :=
  blocks.foldlM
    (fun cur hb =>
      match cur with
      | some cp => (extendCP cp ⟨hb.1, hb.2⟩).map some
      | none => some (some [(⟨hb.1, hb.2⟩ : BlockId)]))
    init

/-- The walk over the previous checkpoint looking for the first height where
the remote-reported hash agrees with the local one; every disagreeing height
visited is recorded in `new_blocks` with its remote hash. -/
def agreementWalk (header : Nat → Nat) :
    CPChain → List (Nat × Nat) → List (Nat × Nat) × Option CPChain
  | [], nb => (nb, none)
  | cp :: rest, nb =>
    if header cp.height = cp.hash then (nb, some (cp :: rest))
    else agreementWalk header rest (btreeInsert natLtB nb cp.height (header cp.height))

/-- `BTreeMap::split_off(&k)`: the entries with key `≥ k`. -/
def btmSplitOff (m : List (Nat × Nat)) (k : Nat) : List (Nat × Nat) :=
  m.filter (fun e => decide (k ≤ e.1))

/-- The inner `block_headers_pop` loop: consume queued header notifications;
a notification whose height does not strictly increase triggers a retry of
the whole reconciliation (`Sum.inl`, carrying the notification's data and
the remaining queue); exhausting the queue ends the loop (`Sum.inr`). -/
def consumePops : Nat → Nat × Nat → List (Nat × Nat × Nat) →
    Sum (Nat × (Nat × Nat) × List (Nat × Nat × Nat)) Unit
  | _, _, [] => Sum.inr ()
  | height, _, (nh, nhash, nprev) :: rest =>
    if nh ≤ height then Sum.inl (nh, (nhash, nprev), rest)
    else consumePops nh (nhash, nprev) rest

/-- The labelled `'retry` loop of `prepare_chain_update`. `header` is the
client's `block_header` oracle; `hdr` the current tip notification's
(hash, prev-hash). `fuel` only serves termination: every retry consumes at
least one queued notification, so `pops.length + 1` rounds always suffice
and the fuel-exhausted `none` is unreachable from `prepare_chain_update`. -/
def pcuLoop (header : Nat → Nat) (prev_tip : Option CPChain) :
    Nat → Nat → Nat × Nat → List (Nat × Nat × Nat) → Option CPChain
  | 0, _, _, _ => none
  | fuel + 1, height, hdr, pops =>
    let nb0 := btreeInsert natLtB [] height hdr.1
    let nb1 := match height with
      | 0 => nb0
      | Nat.succ h => btreeInsert natLtB nb0 h hdr.2
    let wa := agreementWalk header (prev_tip.getD []) nb1
    match consumePops height hdr pops with
    | Sum.inl (h', hdr', rest) => pcuLoop header prev_tip fuel h' hdr' rest
    | Sum.inr () =>
      let new_blocks := match wa.2 with
        | some acp => btmSplitOff wa.1 (((acp.head?.map BlockId.height).getD 0) + 1)
        | none => wa.1
      match buildChain wa.2 new_blocks with
      | some (some cp) => some cp
      | _ => none

/-- `prepare_chain_update` from `crates/electrum/src/electrum_ext.rs`, for a
client whose `block_headers_subscribe` returns `tip = (height, hash,
prev_hash)` and whose queued `block_headers_pop` notifications are `pops`.
`none` models the two `expect` panics and a run that exhausts every queued
notification retrying (with a static remote, an execution that never
returns). -/
def prepare_chain_update (header : Nat → Nat) (tip : Nat × Nat × Nat)
    (pops : List (Nat × Nat × Nat)) (prev_tip : Option CPChain) :
    Option CPChain :=
  pcuLoop header prev_tip (pops.length + 1) tip.1 (tip.2.1, tip.2.2) pops

/-- The candidate new blocks above the previous tip height `prevH`: the
remote tip and (when distinct and still above `prevH`) its direct parent,
in decreasing height order. -/
def newSuffix (tipH tipHash tipPrev prevH : Nat) : CPChain :=
  (if prevH < tipH then [(⟨tipH, tipHash⟩ : BlockId)] else []) ++
  (if 1 ≤ tipH ∧ prevH < tipH - 1 then [(⟨tipH - 1, tipPrev⟩ : BlockId)] else [])

/-- C4: with no queued tip notifications (the tip does not move during the
call) and a remote whose reported hash at every height of the previous
checkpoint equals the local hash (no reorg), `prepare_chain_update` returns
the previous checkpoint unchanged, extended above its tip height by exactly
the candidate new blocks (the remote tip and, when applicable, its direct
parent). -/
theorem prepare_chain_update_no_reorg (header : Nat → Nat)
    (tipH tipHash tipPrev : Nat) (b : BlockId) (l : CPChain)
    (hall : ∀ x ∈ b :: l, header x.height = x.hash) :
    prepare_chain_update header (tipH, tipHash, tipPrev) [] (some (b :: l)) =
      some (newSuffix tipH tipHash tipPrev b.height ++ (b :: l)) := by
  have hb : header b.height = b.hash := hall b (List.mem_cons_self b l)
  cases tipH with
  | zero =>
    have hf : decide (b.height + 1 ≤ 0) = false := by
      simp
    simp [prepare_chain_update, pcuLoop, btreeInsert, agreementWalk, hb,
      consumePops, btmSplitOff, List.filter, hf, buildChain, newSuffix]
  | succ h =>
    have hlt : natLtB h (h + 1) = true := by
      simp [natLtB]
    by_cases h1 : b.height + 1 ≤ h
    · have e1 : decide (b.height + 1 ≤ h) = true := decide_eq_true h1
      have e2 : decide (b.height + 1 ≤ h + 1) = true :=
        decide_eq_true (by omega)
      have e3 : decide (b.height ≤ h) = true := decide_eq_true (by omega)
      have hx1 : b.height < h := by omega
      have hx2 : h < h + 1 := by omega
      have hs1 : b.height < h + 1 := by omega
      have hs2 : 1 ≤ h + 1 ∧ b.height < h + 1 - 1 := by omega
      simp [prepare_chain_update, pcuLoop, btreeInsert, hlt, agreementWalk,
        hb, consumePops, btmSplitOff, List.filter, e1, e2, e3, buildChain,
        List.foldlM, extendCP, hx1, hx2, newSuffix, hs1, hs2]
    · by_cases h2 : b.height + 1 ≤ h + 1
      · have e1 : decide (b.height + 1 ≤ h) = false :=
          decide_eq_false h1
        have e2 : decide (b.height + 1 ≤ h + 1) = true := decide_eq_true h2
        have e3 : decide (b.height ≤ h) = true := decide_eq_true (by omega)
        have hx1 : b.height < h + 1 := by omega
        have hs2 : ¬ (1 ≤ h + 1 ∧ b.height < h + 1 - 1) := by omega
        simp [prepare_chain_update, pcuLoop, btreeInsert, hlt, agreementWalk,
          hb, consumePops, btmSplitOff, List.filter, e1, e2, e3, buildChain,
          List.foldlM, extendCP, hx1, newSuffix, hs2]
        omega
      · have e1 : decide (b.height + 1 ≤ h) = false := decide_eq_false h1
        have e2 : decide (b.height + 1 ≤ h + 1) = false := decide_eq_false h2
        have e3 : decide (b.height ≤ h) = false := decide_eq_false (by omega)
        have hs1 : ¬ b.height < h + 1 := by omega
        have hs2 : ¬ (1 ≤ h + 1 ∧ b.height < h + 1 - 1) := by omega
        simp [prepare_chain_update, pcuLoop, btreeInsert, hlt, agreementWalk,
          hb, consumePops, btmSplitOff, List.filter, e1, e2, e3, buildChain,
          List.foldlM, newSuffix, hs1, hs2]
        omega

/-- Witness for C4: previous tip `{5, 50}`, remote tip `{7, 70}` with parent
`{6, 60}`: the result is the previous checkpoint with exactly the two new
blocks appended above height 5. -/
theorem prepare_chain_update_no_reorg_witness :
    prepare_chain_update (fun h => h * 10) (7, 70, 60) [] (some [⟨5, 50⟩]) =
      some [⟨7, 70⟩, ⟨6, 60⟩, ⟨5, 50⟩] := by
  have h := prepare_chain_update_no_reorg (fun h => h * 10) 7 70 60 ⟨5, 50⟩ []
    (by
      intro x hx
      fin_cases hx
      rfl)
  rw [h]
  rfl

/-! ## Keychain update computation (`ElectrumExt::scan`, final step) -/

/-- Lexicographic strict order on `(keychain, index)` keys, from a strict
keychain comparator. -/
def pairLt {K : Type} (klt : K → K → Bool) (a b : K × Nat) : Bool :=
  klt a.1 b.1 || (!klt a.1 b.1 && !klt b.1 a.1 && decide (a.2 < b.2))

/-- The `keychain_update` computation at the end of `ElectrumExt::scan`:
for each requested keychain `k`, restrict the scanned-script map to `k`'s
range (the entries whose keychain compares equal to `k`), walk it in reverse
(descending index) and take the first entry flagged used; keychains with no
such entry are dropped by `filter_map`. -/
def compute_keychain_update {K : Type} (klt : K → K → Bool) (keys : List K)
    (scanned : List ((K × Nat) × (Nat × Bool))) : List (K × Nat) :=
  keys.filterMap (fun k =>
    ((scanned.filter (fun e => !klt e.1.1 k && !klt k e.1.1)).reverse.find?
      (fun e => e.2.2)).map (fun e => (k, e.1.2)))

/-- The greatest element of a list of indices, `none` when empty. -/
def maxIndex? : List Nat → Option Nat
  | [] => none
  | i :: rest =>
    some (match maxIndex? rest with
      | none => i
      | some m => max i m)

theorem maxIndex?_mem : ∀ (L : List Nat) (m : Nat), maxIndex? L = some m → m ∈ L := by
  intro L
  induction L with
  | nil => intro m h; simp [maxIndex?] at h
  | cons i rest ih =>
    intro m h
    cases hr : maxIndex? rest with
    | none =>
      simp only [maxIndex?, hr, Option.some.injEq] at h
      exact List.mem_cons.mpr (Or.inl h.symm)
    | some m' =>
      simp only [maxIndex?, hr, Option.some.injEq] at h
      rcases le_total i m' with hle | hle
      · rw [max_eq_right hle] at h
        exact List.mem_cons.mpr (Or.inr (h ▸ ih m' hr))
      · rw [max_eq_left hle] at h
        exact List.mem_cons.mpr (Or.inl h.symm)

theorem find_rev_eq_max (L : List ((Nat × Nat) × (Nat × Bool)))
    (hp : List.Pairwise (fun a b => a.1.2 < b.1.2) L) :
    (((L.reverse.find? (fun e => e.2.2)).map (fun e => e.1.2))) =
      maxIndex? ((L.filter (fun e => e.2.2)).map (fun e => e.1.2)) := by
  induction L with
  | nil => rfl
  | cons x rest ih =>
    have hp' := (List.pairwise_cons.mp hp).2
    have hlt := (List.pairwise_cons.mp hp).1
    rw [List.reverse_cons, List.find?_append]
    cases hfind : rest.reverse.find? (fun e => e.2.2) with
    | some y =>
      have hidx := ih hp'
      rw [hfind] at hidx
      cases hmax : maxIndex? ((rest.filter (fun e => e.2.2)).map
          (fun e => e.1.2)) with
      | none => rw [hmax] at hidx; simp at hidx
      | some m' =>
        rw [hmax] at hidx
        simp only [Option.map_some'] at hidx
        have hmem : m' ∈ (rest.filter (fun e => e.2.2)).map (fun e => e.1.2) :=
          maxIndex?_mem _ _ hmax
        obtain ⟨e', he'f, he'i⟩ := List.mem_map.mp hmem
        have he'r : e' ∈ rest := (List.mem_filter.mp he'f).1
        have hxm : x.1.2 < m' := he'i ▸ hlt e' he'r
        by_cases hx : x.2.2 = true
        · simp only [List.filter_cons, hx, if_pos, List.map_cons,
            Option.or_some, maxIndex?, hmax, Option.map_some']
          rw [hidx, max_eq_right hxm.le]
        · simp only [List.filter_cons, hx, Bool.false_eq_true, if_false,
            Option.or_some, Option.map_some']
          rw [hidx, hmax]
    | none =>
      have hnone : ∀ e ∈ rest.reverse, ¬ e.2.2 = true :=
        List.find?_eq_none.mp hfind
      have hfe : rest.filter (fun e => e.2.2) = [] :=
        List.filter_eq_nil_iff.mpr
          (fun e he => hnone e (List.mem_reverse.mpr he))
      by_cases hx : x.2.2 = true
      · simp only [List.filter_cons, hx, if_pos, hfe, List.map_cons,
          List.map_nil]
        simp [List.find?, hx, maxIndex?]
      · simp only [List.filter_cons, hx, Bool.false_eq_true, if_false, hfe]
        simp [List.find?, hx, maxIndex?]

theorem compute_keychain_update_absent (k : Nat)
    (scanned : List ((Nat × Nat) × (Nat × Bool)))
    (hnone : ((scanned.filter
        (fun e => !natLtB e.1.1 k && !natLtB k e.1.1)).reverse.find?
      (fun e => e.2.2)) = none) :
    ∀ keys : List Nat,
      hashGet (compute_keychain_update natLtB keys scanned) k = none := by
  intro keys
  induction keys with
  | nil => rfl
  | cons k0 rest ih =>
    by_cases hk : k0 = k
    · subst hk
      simp only [compute_keychain_update, List.filterMap_cons, hnone,
        Option.map_none']
      exact ih
    · simp only [compute_keychain_update, List.filterMap_cons]
      cases hf : ((scanned.filter
          (fun e => !natLtB e.1.1 k0 && !natLtB k0 e.1.1)).reverse.find?
          (fun e => e.2.2)) with
      | none => exact ih
      | some e0 =>
        simp only [Option.map_some']
        have hne : ((k0, e0.1.2).1 == k) = false :=
          beq_eq_false_iff_ne.mpr hk
        simp only [hashGet, List.find?_cons, hne]
        exact ih

theorem compute_keychain_update_mem (k : Nat)
    (scanned : List ((Nat × Nat) × (Nat × Bool))) :
    ∀ keys : List Nat, k ∈ keys →
      hashGet (compute_keychain_update natLtB keys scanned) k =
        (((scanned.filter
            (fun e => !natLtB e.1.1 k && !natLtB k e.1.1)).reverse.find?
          (fun e => e.2.2)).map (fun e => e.1.2)) := by
  intro keys
  induction keys with
  | nil => intro h; simp at h
  | cons k0 rest ih =>
    intro hmem
    by_cases hk : k0 = k
    · subst hk
      simp only [compute_keychain_update, List.filterMap_cons]
      cases hf : ((scanned.filter
          (fun e => !natLtB e.1.1 k0 && !natLtB k0 e.1.1)).reverse.find?
          (fun e => e.2.2)) with
      | none =>
        simp only [Option.map_none']
        exact compute_keychain_update_absent k0 scanned hf rest
      | some e0 =>
        simp only [Option.map_some', hashGet, List.find?_cons,
          beq_self_eq_true]
    · have hmem' : k ∈ rest := by
        rcases List.mem_cons.mp hmem with h | h
        · exact absurd h.symm hk
        · exact h
      simp only [compute_keychain_update, List.filterMap_cons]
      cases hf : ((scanned.filter
          (fun e => !natLtB e.1.1 k0 && !natLtB k0 e.1.1)).reverse.find?
          (fun e => e.2.2)) with
      | none => exact ih hmem'
      | some e0 =>
        simp only [Option.map_some']
        have hne : ((k0, e0.1.2).1 == k) = false :=
          beq_eq_false_iff_ne.mpr hk
        simp only [hashGet, List.find?_cons, hne]
        exact ih hmem'

/-- C6: for every requested keychain `k`, the computed `keychain_update`
maps `k` to the greatest derivation index among `k`'s scanned scripts flagged
used (found by walking `k`'s scanned records in descending index order and
taking the first used one), and omits `k` when none of its scanned scripts is
used. `scanned` is the scanned-script map, sorted by (keychain, index). -/
theorem keychain_update_highest_used (keys : List Nat)
    (scanned : List ((Nat × Nat) × (Nat × Bool))) (k : Nat)
    (hsorted : List.Pairwise
      (fun a b => a.1.1 < b.1.1 ∨ (a.1.1 = b.1.1 ∧ a.1.2 < b.1.2)) scanned) :
    (k ∈ keys →
      hashGet (compute_keychain_update natLtB keys scanned) k =
        maxIndex? (((scanned.filter
            (fun e => !natLtB e.1.1 k && !natLtB k e.1.1)).filter
          (fun e => e.2.2)).map (fun e => e.1.2))) ∧
    ((∀ e ∈ scanned, e.1.1 = k → e.2.2 = false) →
      hashGet (compute_keychain_update natLtB keys scanned) k = none) := by
  have hpf : List.Pairwise (fun a b => a.1.2 < b.1.2)
      (scanned.filter (fun e => !natLtB e.1.1 k && !natLtB k e.1.1)) := by
    have hsub := List.Pairwise.filter
      (fun e => !natLtB e.1.1 k && !natLtB k e.1.1) hsorted
    refine List.Pairwise.imp_of_mem ?_ hsub
    intro a b ha hb hab
    have hak : a.1.1 = k := by
      have := (List.mem_filter.mp ha).2
      simp only [natLtB, Bool.and_eq_true, Bool.not_eq_true',
        decide_eq_false_iff_not] at this
      omega
    have hbk : b.1.1 = k := by
      have := (List.mem_filter.mp hb).2
      simp only [natLtB, Bool.and_eq_true, Bool.not_eq_true',
        decide_eq_false_iff_not] at this
      omega
    rcases hab with h | h
    · omega
    · exact h.2
  constructor
  · intro hmem
    rw [compute_keychain_update_mem k scanned keys hmem]
    exact find_rev_eq_max _ hpf
  · intro hunused
    apply compute_keychain_update_absent
    rw [List.find?_eq_none]
    intro e he
    have he' : e ∈ scanned.filter
        (fun e => !natLtB e.1.1 k && !natLtB k e.1.1) :=
      List.mem_reverse.mp he
    have hf := List.mem_filter.mp he'
    have hek : e.1.1 = k := by
      have := hf.2
      simp only [natLtB, Bool.and_eq_true, Bool.not_eq_true',
        decide_eq_false_iff_not] at this
      omega
    simp [hunused e hf.1 hek]

/-- Witness for C6: keychain 1 has used scripts at indices 0 and 2 (highest
2); keychain 2 has only an unused script and is omitted. -/
theorem keychain_update_highest_used_witness :
    hashGet (compute_keychain_update natLtB [1, 2]
      [((1, 0), (10, true)), ((1, 1), (11, false)), ((1, 2), (12, true)),
        ((2, 0), (20, false))]) 1 = some 2 ∧
    hashGet (compute_keychain_update natLtB [1, 2]
      [((1, 0), (10, true)), ((1, 1), (11, false)), ((1, 2), (12, true)),
        ((2, 0), (20, false))]) 2 = none := by
  constructor
  · have h := (keychain_update_highest_used [1, 2]
      [((1, 0), (10, true)), ((1, 1), (11, false)), ((1, 2), (12, true)),
        ((2, 0), (20, false))] 1 (by decide)).1 (by decide)
    rw [h]
    rfl
  · exact (keychain_update_highest_used [1, 2]
      [((1, 0), (10, true)), ((1, 1), (11, false)), ((1, 2), (12, true)),
        ((2, 0), (20, false))] 2 (by decide)).2 (by decide)

/-! ## `ElectrumExt::scan` and `scan_without_keychain` -/

/-- `ElectrumUpdate`. -/
structure ElectrumUpdateM (K : Type) where
  graph_update : GraphUpdate
  chain_update : CPChain
  keychain_update : List (K × Nat)

/-- `ElectrumExt::scan` for the `Client` impl, modelled for one attempt of
its retry loop: with a pure client oracle every retry iteration recomputes
identical data, so the loop either breaks on the first pass or never
returns; `none` denotes the non-returning executions (reorg-detected retry
forever) and the modelled panics. On the modelled first attempt
`scanned_spks` is empty at loop entry, so the replay branch
(`if !scanned_spks.is_empty()`) contributes nothing and the per-keychain
scans run directly; the `if !request_spks.is_empty()` guard is subsumed by
folding over the (possibly empty) keychain list. -/
def scan {K : Type} (klt : K → K → Bool) (header : Nat → Nat)
    (hist : Nat → List HistoryItem)
    (tx_get : Nat → Except ElectrumError Transaction)
    (tip : Nat × Nat × Nat) (pops : List (Nat × Nat × Nat))
    (prev_tip : Option CPChain)
    (keychain_spks : List (K × List (Nat × Nat)))
    (txids : List Nat) (outpoints : List OutPoint)
    (stop_gap batch_size : Nat) :
    Option (Except ElectrumError (ElectrumUpdateM K)) :=
  match prepare_chain_update header tip pops prev_tip with
  | none => none
  | some chain_update =>
    match chain_update.head? with
    | none => none
    | some anchor_block =>
      let scanned_graph := keychain_spks.foldl
        (fun (acc : GraphUpdate × List ((K × Nat) × (Nat × Bool))) kc =>
          let r := populate_with_spks natLtB hist anchor_block acc.1 kc.2
            stop_gap batch_size
          (r.graph,
            r.scanned.foldl
              (fun sc e => btreeInsert (pairLt klt) sc (kc.1, e.1) e.2) acc.2))
        ([], [])
      match populate_with_txids tx_get hist anchor_block scanned_graph.1
          txids with
      | none => none
      | some (Except.error e) => some (Except.error e)
      | some (Except.ok graph2) =>
        match populate_with_outpoints tx_get hist anchor_block [] graph2
            outpoints with
        | Except.error e => some (Except.error e)
        | Except.ok (_, graph3) =>
          if header anchor_block.height = anchor_block.hash then
            some (Except.ok
              ⟨graph3, chain_update,
                compute_keychain_update klt (keychain_spks.map (·.1))
                  scanned_graph.2⟩)
          else none

/-- `usize::MAX` on a 64-bit target. -/
def USIZE_MAX : Nat := 2 ^ 64 - 1

/-- `ElectrumExt::scan_without_keychain`: wrap the scripts, enumerated, under
the single keychain `()` and call `scan` with `stop_gap = usize::MAX`. -/
def scan_without_keychain (header : Nat → Nat)
    (hist : Nat → List HistoryItem)
    (tx_get : Nat → Except ElectrumError Transaction)
    (tip : Nat × Nat × Nat) (pops : List (Nat × Nat × Nat))
    (prev_tip : Option CPChain) (misc_spks : List Nat) (txids : List Nat)
    (outpoints : List OutPoint) (batch_size : Nat) :
    Option (Except ElectrumError (ElectrumUpdateM Unit)) :=
  let spk_iter := misc_spks.enum
  scan (fun _ _ => false) header hist tx_get tip pops prev_tip
    [((), spk_iter)] txids outpoints USIZE_MAX batch_size

/-- `scan_without_keychain` as the spec words it: `scan` on a map sending a
single synthetic keychain key to the scripts paired with their enumeration
indices `0, 1, 2, ...`, with the maximum representable stop gap. -/
def scan_without_keychain_spec (header : Nat → Nat)
    (hist : Nat → List HistoryItem)
    (tx_get : Nat → Except ElectrumError Transaction)
    (tip : Nat × Nat × Nat) (pops : List (Nat × Nat × Nat))
    (prev_tip : Option CPChain) (misc_spks : List Nat) (txids : List Nat)
    (outpoints : List OutPoint) (batch_size : Nat) :
    Option (Except ElectrumError (ElectrumUpdateM Unit)) :=
  scan (fun _ _ => false) header hist tx_get tip pops prev_tip
    [((), misc_spks.enum)] txids outpoints USIZE_MAX batch_size

theorem gapOK_of_le {I : Type} (hist : Nat → List HistoryItem) (sg : Nat) :
    ∀ (spks : List (I × Nat)) (count : Nat), count + spks.length ≤ sg →
      gapOK hist sg count spks = true := by
  intro spks
  induction spks with
  | nil => intro count _; rfl
  | cons x tl ih =>
    intro count hle
    obtain ⟨i, spk⟩ := x
    simp only [List.length_cons] at hle
    cases hx : hist spk with
    | nil =>
      simp only [gapOK, hx, Bool.and_eq_true, decide_eq_true_eq]
      exact ⟨by omega, ih (count + 1) (by omega)⟩
    | cons e es =>
      simp only [gapOK, hx]
      exact ih 0 (by omega)

/-- C7: `scan_without_keychain` equals `scan` applied to the map holding the
single synthetic keychain `()` with the scripts paired with their enumeration
indices and `stop_gap = usize::MAX`; and with at most `usize::MAX` scripts
(any Rust in-memory sequence) the gap-limit stop never fires for the
synthetic keychain, whatever the anchor block, accumulated graph and batch
size. -/
theorem scan_without_keychain_refines_scan (header : Nat → Nat)
    (hist : Nat → List HistoryItem)
    (tx_get : Nat → Except ElectrumError Transaction)
    (tip : Nat × Nat × Nat) (pops : List (Nat × Nat × Nat))
    (prev_tip : Option CPChain) (misc_spks : List Nat) (txids : List Nat)
    (outpoints : List OutPoint) (batch_size : Nat) :
    scan_without_keychain header hist tx_get tip pops prev_tip misc_spks
        txids outpoints batch_size =
      scan_without_keychain_spec header hist tx_get tip pops prev_tip
        misc_spks txids outpoints batch_size ∧
    (misc_spks.length ≤ USIZE_MAX →
      ∀ (ab : BlockId) (g : GraphUpdate),
        (populate_with_spks natLtB hist ab g misc_spks.enum USIZE_MAX
          batch_size).stopped = false) := by
  constructor
  · rfl
  · intro hlen ab g
    cases batch_size with
    | zero =>
      simp [populate_with_spks, populateSpksLoop]
    | succ b =>
      have hgap : gapOK hist USIZE_MAX 0 misc_spks.enum = true :=
        gapOK_of_le hist USIZE_MAX misc_spks.enum 0
          (by simpa [List.enum_length] using hlen)
      have h := (populateSpksLoop_no_stop natLtB hist ab USIZE_MAX b
        (misc_spks.enum.length + 1) misc_spks.enum g [] [] 0 (by omega)
        hgap).1
      simpa [populate_with_spks] using h

/-- Witness for C7: a concrete two-script request, where the two calls agree
and the synthetic keychain's scan covers both scripts without stopping. -/
theorem scan_without_keychain_refines_scan_witness :
    (scan_without_keychain (fun h => h * 10) (fun _ => [])
        (fun _ => Except.error (ElectrumError.other 0)) (7, 70, 60) []
        (some [⟨5, 50⟩]) [10, 11] [] [] 1 =
      scan_without_keychain_spec (fun h => h * 10) (fun _ => [])
        (fun _ => Except.error (ElectrumError.other 0)) (7, 70, 60) []
        (some [⟨5, 50⟩]) [10, 11] [] [] 1) ∧
    (populate_with_spks natLtB (fun _ => []) ⟨7, 70⟩ []
      ([10, 11] : List Nat).enum USIZE_MAX 1).stopped = false := by
  have h := scan_without_keychain_refines_scan (fun h => h * 10) (fun _ => [])
    (fun _ => Except.error (ElectrumError.other 0)) (7, 70, 60) []
    (some [⟨5, 50⟩]) [10, 11] [] [] 1
  exact ⟨h.1, h.2 (by decide) ⟨7, 70⟩ []⟩

/-- Witness for C2: the classifier evaluated at concrete inputs through the
theorem, discharging its hypotheses. -/
theorem determine_tx_anchor_spec_witness :
    determine_tx_anchor ⟨100, 5⟩ 7 genesis_coinbase_txid = some ⟨⟨100, 5⟩, 0⟩ ∧
    determine_tx_anchor ⟨100, 5⟩ (-3) 77 = none ∧
    determine_tx_anchor ⟨100, 5⟩ 101 77 = none ∧
    determine_tx_anchor ⟨100, 5⟩ 42 77 = some ⟨⟨100, 5⟩, 42⟩ :=
  ⟨(determine_tx_anchor_spec ⟨100, 5⟩ 7 genesis_coinbase_txid).1 rfl,
   ((determine_tx_anchor_spec ⟨100, 5⟩ (-3) 77).2.1 (by decide) (by decide)),
   ((determine_tx_anchor_spec ⟨100, 5⟩ 101 77).2.2.1 (by decide) (by decide)
      (by decide)),
   ((determine_tx_anchor_spec ⟨100, 5⟩ 42 77).2.2.2.1 (by decide) (by decide)
      (by decide))⟩
